import Mathlib

/-
Verification of the task-processing server in src/student_server.py against its
specification.  The Python source is shallowly embedded: every network call is
represented by its observable outcome (an HTTP status code or a raised
transport exception), real time is represented by an integer clock that each
blocking call advances, and the orchestrator is represented by the ordered
trace of externally visible events it produces.
-/

/-- Outcome of one HTTP request issued by the server: either a response
carrying a status code, or a raised transport exception (`requests` raising
instead of returning). -/
inductive HttpRes where
  | status (code : Nat)
  | exc
deriving DecidableEq

/-- The list of the first `n` delays slept by `notify_with_backoff` when every
attempt fails, starting from current delay `d`: the source initialises
`delay = 1` and after each sleep sets `delay = min(delay*2, 60)`
(src/student_server.py lines 142, 152-153). -/
def backoffDelays : Nat → Nat → List Nat
  | 0, _ => []
  | n + 1, d => d :: backoffDelays n (min (d * 2) 60)

/-- Embedding of the attempt loop of `notify_with_backoff`
(src/student_server.py lines 144-153).  `res i` is the outcome of the POST made
on attempt `i` (0-based); a swallowed exception and any non-200 status both
fall through to `time.sleep(delay)`.  Arguments: attempts remaining, current
attempt index, current delay.  Returns (delivered?, number of POSTs issued,
list of delays slept, in order). -/
def notifyGo (res : Nat → HttpRes) : Nat → Nat → Nat → Bool × Nat × List Nat
  | 0, _, _ => (false, 0, [])
  | n + 1, i, delay =>
    if res i = HttpRes.status 200 then (true, 1, [])
    else
      let r := notifyGo res n (i + 1) (min (delay * 2) 60)
      (r.1, r.2.1 + 1, delay :: r.2.2)

/-- Embedding of `notify_with_backoff(eval_url, payload, max_attempts)`
(src/student_server.py lines 141-154): the loop starts at attempt 0 with
delay 1 and returns False once `range(max_attempts)` is exhausted.  The source
default for `max_attempts` is 8. -/
def notify_with_backoff (res : Nat → HttpRes) (max_attempts : Nat) :
    Bool × Nat × List Nat :=
  notifyGo res max_attempts 0 1

theorem notifyGo_all_fail (res : Nat → HttpRes)
    (h : ∀ i, res i ≠ HttpRes.status 200) :
    ∀ n i d, notifyGo res n i d = (false, n, backoffDelays n d) := by
  intro n
  induction n with
  | zero => intro i d; rfl
  | succ n ih =>
    intro i d
    simp only [notifyGo, if_neg (h i), ih (i + 1), backoffDelays]

theorem notifyGo_success (res : Nat → HttpRes) :
    ∀ k n i d, k < n → (∀ j, j < k → res (i + j) ≠ HttpRes.status 200) →
      res (i + k) = HttpRes.status 200 →
      notifyGo res n i d = (true, k + 1, backoffDelays k d) := by
  intro k
  induction k with
  | zero =>
    intro n i d hn hf hs
    cases n with
    | zero => omega
    | succ m =>
      have hs' : res i = HttpRes.status 200 := by simpa using hs
      simp [notifyGo, hs', backoffDelays]
  | succ k ih =>
    intro n i d hn hf hs
    cases n with
    | zero => omega
    | succ m =>
      have h0 : res i ≠ HttpRes.status 200 := by
        have := hf 0 (by omega); simpa using this
      have hf' : ∀ j, j < k → res (i + 1 + j) ≠ HttpRes.status 200 := by
        intro j hj
        have := hf (j + 1) (by omega)
        simpa [Nat.add_assoc, Nat.add_comm 1 j] using this
      have hs' : res (i + 1 + k) = HttpRes.status 200 := by
        simpa [Nat.add_assoc, Nat.add_comm 1 k] using hs
      have hrec := ih m (i + 1) (min (d * 2) 60) (by omega) hf' hs'
      simp only [notifyGo, if_neg h0, hrec, backoffDelays]

/-- C1: for a callback endpoint whose every attempt fails (non-success status
or transport exception), `notify_with_backoff` with the default budget 8
issues exactly 8 POSTs, the observed sleep delays are 1,2,4,8,16,32,60,60,
attempts stop at the budget with no further sleep, and the call returns
not-delivered. -/
theorem notify_exhaustion_default_budget (res : Nat → HttpRes)
    (h : ∀ i, res i ≠ HttpRes.status 200) :
    notify_with_backoff res 8 = (false, 8, [1, 2, 4, 8, 16, 32, 60, 60]) := by
  rw [notify_with_backoff, notifyGo_all_fail res h 8 0 1]
  rfl

theorem notify_exhaustion_default_budget_witness :
    notify_with_backoff (fun _ => HttpRes.exc) 8 =
      (false, 8, [1, 2, 4, 8, 16, 32, 60, 60]) :=
  notify_exhaustion_default_budget (fun _ => HttpRes.exc)
    (by intro i; show HttpRes.exc ≠ HttpRes.status 200; decide)

/-- C6: for a callback that first returns the exact success status 200 on
attempt `k` (with `k ≤ max_attempts`, every earlier attempt failing — any
non-200 status or exception counts as failure), the notifier issues exactly
`k` POSTs, returns delivered, and only the `k - 1` backoff delays before the
successful attempt are slept: no attempt or sleep follows success. -/
theorem notify_success_stops (res : Nat → HttpRes) (n k : Nat)
    (h1 : 1 ≤ k) (h2 : k ≤ n)
    (hf : ∀ i, i < k - 1 → res i ≠ HttpRes.status 200)
    (hs : res (k - 1) = HttpRes.status 200) :
    notify_with_backoff res n = (true, k, backoffDelays (k - 1) 1) := by
  obtain ⟨k', rfl⟩ : ∃ k', k = k' + 1 := ⟨k - 1, by omega⟩
  have hf' : ∀ j, j < k' → res (0 + j) ≠ HttpRes.status 200 := by
    intro j hj
    simpa using hf j (by omega)
  have hs' : res (0 + k') = HttpRes.status 200 := by simpa using hs
  have := notifyGo_success res k' n 0 1 (by omega) hf' hs'
  simpa [notify_with_backoff] using this

theorem notify_success_stops_witness :
    notify_with_backoff
      (fun i => if i = 2 then HttpRes.status 200 else HttpRes.status 500) 8 =
      (true, 3, [1, 2]) := by
  have h := notify_success_stops
    (fun i => if i = 2 then HttpRes.status 200 else HttpRes.status 500) 8 3
    (by decide) (by decide) (by decide) (by decide)
  exact h.trans (by decide)

/-- Embedding of the polling loop of `wait_for_pages`
(src/student_server.py lines 129-139) on an integer clock.  `probe t` is the
outcome of the GET issued at time `t` (exceptions are swallowed by the
source's bare `except`); `probeDur` is the time one GET takes;
`poll_interval` is the time slept after a non-success probe; `endT` is the
deadline computed on entry.  `fuel` bounds the number of loop iterations so
the embedding is total; every theorem supplies enough fuel.  Returns
(success?, time of return, number of probes issued, number of sleeps). -/
def pollGo (probe : Int → HttpRes) (probeDur poll_interval endT : Int) :
    Nat → Int → Option (Bool × Int × Nat × Nat)
  | 0, t => if t < endT then none else some (false, t, 0, 0)
  | fuel + 1, t =>
    if t < endT then
      if probe t = HttpRes.status 200 then some (true, t + probeDur, 1, 0)
      else
        match pollGo probe probeDur poll_interval endT fuel
            (t + probeDur + poll_interval) with
        | none => none
        | some (r, tf, p, s) => some (r, tf, p + 1, s + 1)
    else some (false, t, 0, 0)

/-- Embedding of `wait_for_pages(pages_url, timeout, poll_interval)`
(src/student_server.py lines 129-139): on entry computes
`end = time.time() + timeout` and loops while `time.time() < end`.  The source
defaults are `timeout=180`, `poll_interval=2`. -/
def wait_for_pages (probe : Int → HttpRes) (probeDur start timeout poll_interval : Int)
    (fuel : Nat) : Option (Bool × Int × Nat × Nat) :=
  pollGo probe probeDur poll_interval (start + timeout) fuel start

theorem pollGo_false_past_deadline (probe : Int → HttpRes)
    (probeDur poll_interval endT : Int)
    (hp : ∀ u, probe u ≠ HttpRes.status 200)
    (hpd : 0 ≤ probeDur) (hpi : 1 ≤ poll_interval) :
    ∀ (fuel : Nat) (t : Int), endT - t ≤ (fuel : Int) →
      t < endT + (probeDur + poll_interval) →
      ∃ tf p s,
        pollGo probe probeDur poll_interval endT fuel t = some (false, tf, p, s) ∧
        endT ≤ tf ∧ tf < endT + (probeDur + poll_interval) := by
  intro fuel
  induction fuel with
  | zero =>
    intro t hfu hlt
    have hge : ¬ t < endT := by
      simp only [Nat.cast_zero] at hfu; omega
    refine ⟨t, 0, 0, ?_, by omega, hlt⟩
    simp [pollGo, hge]
  | succ fuel ih =>
    intro t hfu hlt
    by_cases hin : t < endT
    · have hrec := ih (t + probeDur + poll_interval)
        (by push_cast at hfu ⊢; omega) (by omega)
      obtain ⟨tf, p, s, heq, hb1, hb2⟩ := hrec
      refine ⟨tf, p + 1, s + 1, ?_, hb1, hb2⟩
      simp only [pollGo, if_pos hin, if_neg (hp t), heq]
    · refine ⟨t, 0, 0, ?_, by omega, hlt⟩
      simp [pollGo, hin]

/-- C4: for a probe endpoint that never returns a success status, the poller
returns false exactly at the configured timeout boundary and never earlier:
the time at which it returns false is at least `start + timeout`, and is the
first loop check past the deadline (within one probe-plus-sleep step of it). -/
theorem poller_never_false_before_deadline (probe : Int → HttpRes)
    (probeDur start timeout poll_interval : Int) (fuel : Nat)
    (hp : ∀ u, probe u ≠ HttpRes.status 200)
    (hpd : 0 ≤ probeDur) (hpi : 1 ≤ poll_interval)
    (ht : 0 < timeout) (hfuel : timeout ≤ (fuel : Int)) :
    ∃ tf p s,
      wait_for_pages probe probeDur start timeout poll_interval fuel =
        some (false, tf, p, s) ∧
      start + timeout ≤ tf ∧
      tf < start + timeout + (probeDur + poll_interval) := by
  have h := pollGo_false_past_deadline probe probeDur poll_interval
    (start + timeout) hp hpd hpi fuel start (by omega) (by omega)
  simpa [wait_for_pages] using h

theorem poller_never_false_before_deadline_witness :
    ∃ tf p s,
      wait_for_pages (fun _ => HttpRes.exc) 0 0 180 2 180 =
        some (false, tf, p, s) ∧
      (0 : Int) + 180 ≤ tf ∧ tf < (0 : Int) + 180 + (0 + 2) :=
  poller_never_false_before_deadline (fun _ => HttpRes.exc) 0 0 180 2 180
    (by intro u; show HttpRes.exc ≠ HttpRes.status 200; decide)
    (by decide) (by decide) (by decide) (by norm_num)

/-- C9: for every non-positive timeout value, the poller returns false while
issuing zero probes and zero sleeps, because the `time.time() < end` check
precedes the first probe of each loop iteration. -/
theorem poller_nonpositive_timeout (probe : Int → HttpRes)
    (probeDur start timeout poll_interval : Int) (fuel : Nat)
    (ht : timeout ≤ 0) :
    wait_for_pages probe probeDur start timeout poll_interval fuel =
      some (false, start, 0, 0) := by
  have hge : ¬ start < start + timeout := by omega
  cases fuel <;> simp [wait_for_pages, pollGo, hge]

theorem poller_nonpositive_timeout_witness :
    wait_for_pages (fun _ => HttpRes.status 200) 1 100 (-5) 2 40 =
      some (false, 100, 0, 0) :=
  poller_nonpositive_timeout (fun _ => HttpRes.status 200) 1 100 (-5) 2 40
    (by decide)

/-- One step of CPython's non-strict `binascii.a2b_base64`, which
`base64.b64decode` (src/student_server.py line 48) calls with
`validate=False`: characters outside the base64 alphabet are skipped, a `=`
seen with at least two data characters in the current quad counts toward the
padding that ends decoding successfully, and input ending mid-quad is an
error.  `q` is the position inside the current 4-character group, `pads` the
number of padding characters counted for that group.  Returns whether
decoding succeeds. -/
def b64Run : List Char → Nat → Nat → Bool
  | [], q, _ => q == 0
  | c :: rest, q, pads =>
    if c = '=' then
      if 2 ≤ q then
        if 4 ≤ q + (pads + 1) then true else b64Run rest q (pads + 1)
      else b64Run rest q pads
    else if ('A' ≤ c ∧ c ≤ 'Z') ∨ ('a' ≤ c ∧ c ≤ 'z') ∨ ('0' ≤ c ∧ c ≤ '9')
        ∨ c = '+' ∨ c = '/' then
      b64Run rest ((q + 1) % 4) 0
    else b64Run rest q pads

/-- Success predicate of `base64.b64decode` on a Python `str`: the string must
encode to ASCII and then pass `a2b_base64`.  The decoded bytes themselves are
never inspected by any claim, so only success/failure is modelled. -/
def b64decodeOk (cs : List Char) : Bool :=
  cs.all (fun c => c.toNat < 128) && b64Run cs 0 0

/-- First-occurrence split: returns the part of the list before the first
occurrence of `sep` and the part after it, or `none` when `sep` does not
occur.  This is what the non-greedy group of `data:(.*?);base64,(.*)` with
`re.S` computes for the literal `;base64,`. -/
def splitFirst (sep : List Char) : List Char → Option (List Char × List Char)
  | [] => if sep.isEmpty then some ([], []) else none
  | c :: rest =>
    if sep.isPrefixOf (c :: rest) then some ([], (c :: rest).drop sep.length)
    else
      match splitFirst sep rest with
      | none => none
      | some (pre, post) => some (c :: pre, post)

/-- Success predicate of `decode_data_uri_to_file` (src/student_server.py
lines 43-48): the attachment url must match `data:(.*?);base64,(.*)` from the
start of the string (else `ValueError("Invalid data URI")` is raised) and its
second group must base64-decode (else `binascii.Error` is raised).  Either
exception is the spec's DecodeError. -/
def decodeOk (s : String) : Bool :=
  let cs := s.data
  if ("data:".data).isPrefixOf cs then
    match splitFirst (";base64,".data) (cs.drop 5) with
    | none => false
    | some (_, body) => b64decodeOk body
  else false

/-- One attachment of a task: `{name: ..., url: ...}`
(src/student_server.py lines 67-68, 172-174). -/
structure Attachment where
  name : String
  url : String
deriving DecidableEq

/-- The task descriptor as `process_task` reads it from the validated JSON
body (src/student_server.py lines 160-166).  `nonce` and `evaluation_url` are
`task_json.get(...)` results and may be absent (`none`); a present-but-empty
callback URL is `some ""`. -/
structure TaskDesc where
  email : String
  task : String
  round : Int
  nonce : Option String
  brief : String
  attachments : List Attachment
  evaluation_url : Option String
deriving DecidableEq

/-- Python truthiness of an optional string: `None` and `""` are falsy, which
is what `if evaluation_url:` (src/student_server.py line 229) tests. -/
def truthyStr : Option String → Bool
  | none => false
  | some s => s ≠ ""

/-- Externally visible events of one `process_task` run, in order.  File
contents are not recorded (no claim mentions them), only which side effect
happens and on which name. -/
inductive Ev where
  | wsCreate
  | attWrite (name : String)
  | genWrite (name : String)
  | licenseWrite
  | git (cmd : String)
  | repoCreate
  | pagesPost
  | pagesPut
  | pollRun
  | notifyRun
  | wsDelete
  | errLog
  | finish
deriving DecidableEq

/-- The git commands run by the publish phase before the remote repository is
created (src/student_server.py lines 188-192). -/
def gitSeq1 : List String :=
  ["init", "config user.email", "config user.name", "add --all", "commit"]

/-- The git commands run after the remote repository is created
(src/student_server.py lines 201-206). -/
def gitSeq2 : List String :=
  ["remote add origin", "branch -M main", "push -u origin main", "rev-parse HEAD"]

/-- Outcomes of the external effects one `process_task` run performs.
`gitOk c` tells whether the git command `c` exits zero (`run` uses
`check=True`, so a non-zero exit raises, src/student_server.py lines 50-53);
`createRepoResp` is `some html_url` when `github_create_repo` returns and
`none` when it raises (missing token, transport error, or
`raise_for_status`); `pagesPostResp`/`pagesPutResp` are the status codes of
the two hosting-enable requests, `none` modelling a raised transport
exception. -/
structure Env where
  ghToken : Bool
  gitOk : String → Bool
  createRepoResp : Option String
  pagesPostResp : Option Nat
  pagesPutResp : Option Nat

/-- Writing a file into the workspace: a new name is appended, writing an
existing name overwrites it in place (the set of files is unchanged). -/
def writeName (files : List String) (n : String) : List String :=
  if n ∈ files then files else files ++ [n]

/-- The attachment loop of `process_task` (src/student_server.py lines
172-177): each attachment's url is decoded into a file named by its declared
name; the first decode failure raises and abandons the loop.  Returns the
events of the loop and, on success, the resulting workspace file list. -/
def writeAtts : List Attachment → List String → List Ev × Option (List String)
  | [], files => ([], some files)
  | a :: rest, files =>
    if decodeOk a.url then
      let r := writeAtts rest (writeName files a.name)
      (Ev.attWrite a.name :: r.1, r.2)
    else ([], none)

/-- Embedding of `generate_minimal_app(brief, attachments)`
(src/student_server.py lines 67-103): a pure map from relative file name to
text content, an HTML page referencing the first attachment's name plus a
README quoting the brief.  The bodies are abbreviated here — no claim reads
them — but the names and their order are the source's. -/
def generate_minimal_app (brief : String) (attachments : List Attachment) :
    List (String × String) :=
  let default_asset := ((attachments.head?).map (fun a => a.name)).getD ""
  [("index.html", "<!doctype html> Auto-generated task app " ++ default_asset),
   ("README.md", "# Auto-generated Task App -- Brief: " ++ brief)]

/-- The workspace file list after the build phase of `process_task`
(src/student_server.py lines 168-185): decoded attachments, then the
generated files, then the LICENSE written by `write_mit_license`; `none` when
an attachment fails to decode. -/
def postBuildFiles (t : TaskDesc) : Option (List String) :=
  match (writeAtts t.attachments []).2 with
  | none => none
  | some fs =>
    let fs := (generate_minimal_app t.brief t.attachments).foldl
      (fun acc p => writeName acc p.1) fs
    some (writeName fs "LICENSE")

/-- Running a sequence of git commands through `run` (src/student_server.py
lines 50-53): commands execute in order until the first non-zero exit, which
raises `CalledProcessError`.  Returns the events and whether all succeeded. -/
def runGits (ok : String → Bool) : List String → List Ev × Bool
  | [] => ([], true)
  | c :: rest =>
    if ok c then
      let r := runGits ok rest
      (Ev.git c :: r.1, r.2)
    else ([], false)

/-- Embedding of `github_enable_pages(owner, repo)` (src/student_server.py
lines 116-127): raises when `GH_TOKEN` is unset, otherwise POSTs; when the
POST status is neither 201 nor 202 it retries exactly once with PUT against
the same endpoint and returns whatever that second response is.  Returns the
requests issued and `some status` of the returned response, `none` when a
transport exception propagates. -/
def github_enable_pages (ghToken : Bool) (postResp putResp : Option Nat) :
    List Ev × Option Nat :=
  if ghToken then
    match postResp with
    | none => ([Ev.pagesPost], none)
    | some s =>
      if s = 201 ∨ s = 202 then ([Ev.pagesPost], some s)
      else
        match putResp with
        | none => ([Ev.pagesPost, Ev.pagesPut], none)
        | some s2 => ([Ev.pagesPost, Ev.pagesPut], some s2)
  else ([], none)

/-- The tail of `process_task` after a hosting-enable call that returned
(src/student_server.py lines 214-234): `wait_for_pages` always runs (its
failure only prints a warning), then the callback is notified exactly when
`evaluation_url` is truthy, then the task finishes.  The workspace is never
deleted — the cleanup on line 235 is commented out. -/
def afterPages (t : TaskDesc) : List Ev :=
  Ev.pollRun ::
    (if truthyStr t.evaluation_url then [Ev.notifyRun, Ev.finish] else [Ev.finish])

/-- The provision-and-later phase of `process_task` (src/student_server.py
lines 194-234): create the remote repository (fatal on failure), push via
`gitSeq2` (fatal), enable hosting (fatal only if the call raises), then
`afterPages`.  Any raise is caught by the surrounding `except`, which only
logs (line 237-238). -/
def provisionPhase (env : Env) (t : TaskDesc) : List Ev :=
  if env.ghToken then
    Ev.repoCreate ::
      match env.createRepoResp with
      | none => [Ev.errLog]
      | some _ =>
        let g2 := runGits env.gitOk gitSeq2
        g2.1 ++
          (if g2.2 then
            let pg := github_enable_pages env.ghToken env.pagesPostResp env.pagesPutResp
            pg.1 ++
              (match pg.2 with
               | none => [Ev.errLog]
               | some _ => afterPages t)
          else [Ev.errLog])
  else [Ev.errLog]

/-- Embedding of `process_task(task_json)` (src/student_server.py lines
157-238) as the ordered trace of its side effects: make the workspace, write
the attachments, write the generated files and the license, run the local git
sequence, then the provision phase.  The whole body runs inside one
`try/except` whose handler only prints the error. -/
def process_task (env : Env) (t : TaskDesc) : List Ev :=
  let wa := writeAtts t.attachments []
  Ev.wsCreate ::
    wa.1 ++
      match wa.2 with
      | none => [Ev.errLog]
      | some _ =>
        (generate_minimal_app t.brief t.attachments).map (fun p => Ev.genWrite p.1) ++
          [Ev.licenseWrite] ++
          (let g1 := runGits env.gitOk gitSeq1
           g1.1 ++ (if g1.2 then provisionPhase env t else [Ev.errLog]))

theorem writeAtts_mem {e : Ev} :
    ∀ (atts : List Attachment) (fs : List String),
      e ∈ (writeAtts atts fs).1 → ∃ n, e = Ev.attWrite n := by
  intro atts
  induction atts with
  | nil => intro fs h; simp [writeAtts] at h
  | cons a rest ih =>
    intro fs h
    by_cases hd : decodeOk a.url
    · simp only [writeAtts, if_pos hd, List.mem_cons] at h
      rcases h with h | h
      · exact ⟨a.name, h⟩
      · exact ih _ h
    · simp [writeAtts, hd] at h

theorem writeAtts_fail :
    ∀ (atts : List Attachment) (fs : List String),
      (∃ a ∈ atts, decodeOk a.url = false) → (writeAtts atts fs).2 = none := by
  intro atts
  induction atts with
  | nil => intro fs h; simp at h
  | cons a rest ih =>
    intro fs h
    by_cases hd : decodeOk a.url
    · obtain ⟨b, hb, hbad⟩ := h
      rcases List.mem_cons.mp hb with rfl | hb'
      · rw [hd] at hbad; cases hbad
      · simp only [writeAtts, if_pos hd]
        exact ih _ ⟨b, hb', hbad⟩
    · simp [writeAtts, hd]

theorem writeAtts_ok :
    ∀ (atts : List Attachment) (fs : List String),
      (∀ a ∈ atts, decodeOk a.url = true) →
      writeAtts atts fs =
        (atts.map (fun a => Ev.attWrite a.name),
         some (atts.foldl (fun acc a => writeName acc a.name) fs)) := by
  intro atts
  induction atts with
  | nil => intro fs _; rfl
  | cons a rest ih =>
    intro fs h
    have ha : decodeOk a.url = true := h a (List.mem_cons_self a rest)
    have hr : ∀ b ∈ rest, decodeOk b.url = true := fun b hb => h b (List.mem_cons_of_mem a hb)
    simp only [writeAtts, if_pos ha, ih (writeName fs a.name) hr, List.map_cons,
      List.foldl_cons]

theorem runGits_mem {e : Ev} :
    ∀ (cmds : List String) (ok : String → Bool),
      e ∈ (runGits ok cmds).1 → ∃ c, e = Ev.git c := by
  intro cmds
  induction cmds with
  | nil => intro ok h; simp [runGits] at h
  | cons c rest ih =>
    intro ok h
    by_cases hc : ok c
    · simp only [runGits, if_pos hc, List.mem_cons] at h
      rcases h with h | h
      · exact ⟨c, h⟩
      · exact ih _ h
    · simp [runGits, hc] at h

theorem runGits_ok :
    ∀ (cmds : List String) (ok : String → Bool),
      (∀ c ∈ cmds, ok c = true) →
      runGits ok cmds = (cmds.map Ev.git, true) := by
  intro cmds
  induction cmds with
  | nil => intro ok _; rfl
  | cons c rest ih =>
    intro ok h
    have hc : ok c = true := h c (List.mem_cons_self c rest)
    have hr : ∀ b ∈ rest, ok b = true := fun b hb => h b (List.mem_cons_of_mem c hb)
    simp only [runGits, if_pos hc, ih ok hr, List.map_cons]

theorem runGits_fail :
    ∀ (cmds : List String) (ok : String → Bool),
      (∃ c ∈ cmds, ok c = false) → (runGits ok cmds).2 = false := by
  intro cmds
  induction cmds with
  | nil => intro ok h; simp at h
  | cons c rest ih =>
    intro ok h
    by_cases hc : ok c
    · obtain ⟨b, hb, hbad⟩ := h
      rcases List.mem_cons.mp hb with rfl | hb'
      · rw [hc] at hbad; cases hbad
      · simp only [runGits, if_pos hc]
        exact ih _ ⟨b, hb', hbad⟩
    · simp [runGits, hc]

theorem abort_decode_mem (env : Env) (t : TaskDesc)
    (h2 : (writeAtts t.attachments []).2 = none) :
    ∀ e : Ev, e ∈ process_task env t →
      e = Ev.wsCreate ∨ (∃ n, e = Ev.attWrite n) ∨ e = Ev.errLog := by
  intro e hm
  simp only [process_task, h2, List.mem_cons, List.mem_append,
    List.mem_singleton] at hm
  rcases hm with (h' | h') | h'
  · exact Or.inl h'
  · exact Or.inr (Or.inl (writeAtts_mem _ _ h'))
  · exact Or.inr (Or.inr (by simpa using h'))

/-- C2: for every task whose attachment list contains at least one attachment
whose encoded payload is malformed (its url fails
`data:(.*?);base64,(.*)` matching or base64 decoding), `process_task` raises
during the attachment-writing stage and no git operation ever runs — in
particular no commit is created; the error is logged. -/
theorem malformed_attachment_aborts_before_git (env : Env) (t : TaskDesc)
    (h : ∃ a ∈ t.attachments, decodeOk a.url = false) :
    Ev.git "commit" ∉ process_task env t ∧
      Ev.git "init" ∉ process_task env t ∧
      Ev.errLog ∈ process_task env t := by
  have h2 := writeAtts_fail t.attachments [] h
  have hmem := abort_decode_mem env t h2
  refine ⟨?_, ?_, ?_⟩
  · intro hm
    rcases hmem _ hm with h' | ⟨n, h'⟩ | h' <;> exact Ev.noConfusion h'
  · intro hm
    rcases hmem _ hm with h' | ⟨n, h'⟩ | h' <;> exact Ev.noConfusion h'
  · simp [process_task, h2]

theorem malformed_attachment_aborts_before_git_witness :
    Ev.git "commit" ∉ process_task
        { ghToken := true, gitOk := fun _ => true, createRepoResp := some "u",
          pagesPostResp := some 201, pagesPutResp := some 201 }
        { email := "e", task := "t1", round := 1, nonce := none, brief := "",
          attachments := [⟨"x.png", "not a data uri"⟩],
          evaluation_url := some "http://cb" } ∧
      Ev.git "init" ∉ process_task
        { ghToken := true, gitOk := fun _ => true, createRepoResp := some "u",
          pagesPostResp := some 201, pagesPutResp := some 201 }
        { email := "e", task := "t1", round := 1, nonce := none, brief := "",
          attachments := [⟨"x.png", "not a data uri"⟩],
          evaluation_url := some "http://cb" } ∧
      Ev.errLog ∈ process_task
        { ghToken := true, gitOk := fun _ => true, createRepoResp := some "u",
          pagesPostResp := some 201, pagesPutResp := some 201 }
        { email := "e", task := "t1", round := 1, nonce := none, brief := "",
          attachments := [⟨"x.png", "not a data uri"⟩],
          evaluation_url := some "http://cb" } :=
  malformed_attachment_aborts_before_git _ _ (by decide)

theorem git_fail_mem (env : Env) (t : TaskDesc)
    (hok : ∀ a ∈ t.attachments, decodeOk a.url = true)
    (hfail : (runGits env.gitOk gitSeq1).2 = false) :
    ∀ e : Ev, e ∈ process_task env t →
      e = Ev.wsCreate ∨ (∃ n, e = Ev.attWrite n) ∨ (∃ n, e = Ev.genWrite n) ∨
        e = Ev.licenseWrite ∨ (∃ c, e = Ev.git c) ∨ e = Ev.errLog := by
  intro e hm
  simp only [process_task, writeAtts_ok t.attachments [] hok, hfail,
    generate_minimal_app, Bool.false_eq_true, if_false, List.map_cons,
    List.map_nil, List.mem_cons, List.mem_append, List.mem_map,
    List.mem_singleton, List.mem_nil_iff, or_false, false_or, or_assoc] at hm
  rcases hm with h' | ⟨a, ha, h'⟩ | h' | h' | h' | h' | h'
  · exact Or.inl h'
  · exact Or.inr (Or.inl ⟨a.name, h'.symm⟩)
  · exact Or.inr (Or.inr (Or.inl ⟨"index.html", h'⟩))
  · exact Or.inr (Or.inr (Or.inl ⟨"README.md", h'⟩))
  · exact Or.inr (Or.inr (Or.inr (Or.inl h')))
  · exact Or.inr (Or.inr (Or.inr (Or.inr (Or.inl (runGits_mem _ _ h')))))
  · exact Or.inr (Or.inr (Or.inr (Or.inr (Or.inr h'))))

/-- C3: for every task in which the workspace stage (an attachment fails to
decode) or the publish stage (one of the local git commands exits non-zero)
fails, all remaining stages are skipped: no remote repository is created, no
hosting-enable request and no availability poll happen, no notification POST
is attempted, the error is only logged (caught by the orchestrator's
`except`), and the workspace directory is not deleted.  The build stage
(pure file generation) cannot fail in the source, so the two hypotheses are
the only raising points before provisioning. -/
theorem early_stage_failure_skips_rest (env : Env) (t : TaskDesc)
    (h : (∃ a ∈ t.attachments, decodeOk a.url = false) ∨
      ((∀ a ∈ t.attachments, decodeOk a.url = true) ∧
        ∃ c ∈ gitSeq1, env.gitOk c = false)) :
    Ev.repoCreate ∉ process_task env t ∧
      Ev.notifyRun ∉ process_task env t ∧
      Ev.pagesPost ∉ process_task env t ∧
      Ev.pollRun ∉ process_task env t ∧
      Ev.wsDelete ∉ process_task env t ∧
      Ev.errLog ∈ process_task env t := by
  rcases h with hbad | ⟨hok, hgit⟩
  · have h2 := writeAtts_fail t.attachments [] hbad
    have hmem := abort_decode_mem env t h2
    refine ⟨?_, ?_, ?_, ?_, ?_, ?_⟩ <;>
      first
        | (intro hm
           rcases hmem _ hm with h' | ⟨n, h'⟩ | h' <;> exact Ev.noConfusion h')
        | simp [process_task, h2]
  · have hfail := runGits_fail gitSeq1 env.gitOk hgit
    have hmem := git_fail_mem env t hok hfail
    refine ⟨?_, ?_, ?_, ?_, ?_, ?_⟩ <;>
      first
        | (intro hm
           rcases hmem _ hm with h' | ⟨n, h'⟩ | ⟨n, h'⟩ | h' | ⟨c, h'⟩ | h' <;>
             exact Ev.noConfusion h')
        | simp [process_task, writeAtts_ok t.attachments [] hok, hfail]

theorem early_stage_failure_skips_rest_witness :
    Ev.repoCreate ∉ process_task
        { ghToken := true, gitOk := fun c => c ≠ "commit", createRepoResp := some "u",
          pagesPostResp := some 201, pagesPutResp := some 201 }
        { email := "e", task := "t1", round := 1, nonce := none, brief := "",
          attachments := [], evaluation_url := some "http://cb" } ∧
      Ev.notifyRun ∉ process_task
        { ghToken := true, gitOk := fun c => c ≠ "commit", createRepoResp := some "u",
          pagesPostResp := some 201, pagesPutResp := some 201 }
        { email := "e", task := "t1", round := 1, nonce := none, brief := "",
          attachments := [], evaluation_url := some "http://cb" } ∧
      Ev.pagesPost ∉ process_task
        { ghToken := true, gitOk := fun c => c ≠ "commit", createRepoResp := some "u",
          pagesPostResp := some 201, pagesPutResp := some 201 }
        { email := "e", task := "t1", round := 1, nonce := none, brief := "",
          attachments := [], evaluation_url := some "http://cb" } ∧
      Ev.pollRun ∉ process_task
        { ghToken := true, gitOk := fun c => c ≠ "commit", createRepoResp := some "u",
          pagesPostResp := some 201, pagesPutResp := some 201 }
        { email := "e", task := "t1", round := 1, nonce := none, brief := "",
          attachments := [], evaluation_url := some "http://cb" } ∧
      Ev.wsDelete ∉ process_task
        { ghToken := true, gitOk := fun c => c ≠ "commit", createRepoResp := some "u",
          pagesPostResp := some 201, pagesPutResp := some 201 }
        { email := "e", task := "t1", round := 1, nonce := none, brief := "",
          attachments := [], evaluation_url := some "http://cb" } ∧
      Ev.errLog ∈ process_task
        { ghToken := true, gitOk := fun c => c ≠ "commit", createRepoResp := some "u",
          pagesPostResp := some 201, pagesPutResp := some 201 }
        { email := "e", task := "t1", round := 1, nonce := none, brief := "",
          attachments := [], evaluation_url := some "http://cb" } :=
  early_stage_failure_skips_rest _ _
    (Or.inr ⟨by decide, by decide⟩)

/-- C5 counterexample: the claim "any failure of the hosting-enable step is
non-fatal: the pipeline always proceeds to polling and then notification
regardless of the step's outcome" is false.  Here every earlier stage
succeeds and the callback URL is present, but the hosting-enable POST raises
a transport exception (`requests.post` has no surrounding try in
`github_enable_pages`), so the run aborts with only a logged error: no poll
and no notification happen. -/
theorem pages_exception_aborts_pipeline :
    Ev.pollRun ∉ process_task
        { ghToken := true, gitOk := fun _ => true, createRepoResp := some "u",
          pagesPostResp := none, pagesPutResp := none }
        { email := "e", task := "t1", round := 1, nonce := none, brief := "",
          attachments := [], evaluation_url := some "http://cb" } ∧
      Ev.notifyRun ∉ process_task
        { ghToken := true, gitOk := fun _ => true, createRepoResp := some "u",
          pagesPostResp := none, pagesPutResp := none }
        { email := "e", task := "t1", round := 1, nonce := none, brief := "",
          attachments := [], evaluation_url := some "http://cb" } ∧
      Ev.errLog ∈ process_task
        { ghToken := true, gitOk := fun _ => true, createRepoResp := some "u",
          pagesPostResp := none, pagesPutResp := none }
        { email := "e", task := "t1", round := 1, nonce := none, brief := "",
          attachments := [], evaluation_url := some "http://cb" } := by
  decide

/-- C5 as amended: if the hosting-enable POST returns a status other than
201/202, exactly one retry with PUT is issued against the same endpoint and
whatever the PUT returns is the step's result; any status outcome of the
step (the source never checks the returned status) is non-fatal and the
pipeline proceeds to polling and then, when a callback URL is present, to
notification.  (A raised transport exception in the step instead aborts the
pipeline — see the counterexample.) -/
theorem pages_status_failure_nonfatal (env : Env) (t : TaskDesc)
    (hgh : env.ghToken = true)
    (hdec : ∀ a ∈ t.attachments, decodeOk a.url = true)
    (hgit : ∀ c, env.gitOk c = true)
    (u : String) (p q : Nat)
    (hrepo : env.createRepoResp = some u)
    (hpost : env.pagesPostResp = some p)
    (hput : env.pagesPutResp = some q)
    (hcb : truthyStr t.evaluation_url = true) :
    github_enable_pages true (some p) (some q) =
        (if p = 201 ∨ p = 202 then ([Ev.pagesPost], some p)
         else ([Ev.pagesPost, Ev.pagesPut], some q)) ∧
      Ev.pollRun ∈ process_task env t ∧
      Ev.notifyRun ∈ process_task env t := by
  have hg1 := runGits_ok gitSeq1 env.gitOk (fun c _ => hgit c)
  have hg2 := runGits_ok gitSeq2 env.gitOk (fun c _ => hgit c)
  by_cases hp : p = 201 ∨ p = 202
  · refine ⟨by simp [github_enable_pages, hp], ?_, ?_⟩ <;>
      simp [process_task, writeAtts_ok t.attachments [] hdec, hg1,
        provisionPhase, hgh, hrepo, hg2, github_enable_pages, hpost, hput,
        afterPages, hcb, hp]
  · refine ⟨by simp [github_enable_pages, hp], ?_, ?_⟩ <;>
      simp [process_task, writeAtts_ok t.attachments [] hdec, hg1,
        provisionPhase, hgh, hrepo, hg2, github_enable_pages, hpost, hput,
        afterPages, hcb, hp]

theorem pages_status_failure_nonfatal_witness :
    github_enable_pages true (some 404) (some 500) =
        (if (404 : Nat) = 201 ∨ (404 : Nat) = 202 then ([Ev.pagesPost], some 404)
         else ([Ev.pagesPost, Ev.pagesPut], some 500)) ∧
      Ev.pollRun ∈ process_task
        { ghToken := true, gitOk := fun _ => true, createRepoResp := some "u",
          pagesPostResp := some 404, pagesPutResp := some 500 }
        { email := "e", task := "t1", round := 1, nonce := none, brief := "",
          attachments := [], evaluation_url := some "http://cb" } ∧
      Ev.notifyRun ∈ process_task
        { ghToken := true, gitOk := fun _ => true, createRepoResp := some "u",
          pagesPostResp := some 404, pagesPutResp := some 500 }
        { email := "e", task := "t1", round := 1, nonce := none, brief := "",
          attachments := [], evaluation_url := some "http://cb" } :=
  pages_status_failure_nonfatal _ _ rfl (by decide) (fun _ => rfl) "u" 404 500
    rfl rfl rfl (by decide)

theorem foldl_writeName_fresh :
    ∀ (atts : List Attachment) (fs : List String),
      (∀ a ∈ atts, a.name ∉ fs) → (atts.map (fun a => a.name)).Nodup →
      atts.foldl (fun acc a => writeName acc a.name) fs =
        fs ++ atts.map (fun a => a.name) := by
  intro atts
  induction atts with
  | nil => intro fs _ _; simp
  | cons a rest ih =>
    intro fs hfresh hnd
    have ha : a.name ∉ fs := hfresh a (List.mem_cons_self a rest)
    have hstep : writeName fs a.name = fs ++ [a.name] := by
      simp [writeName, ha]
    have hnd' : (rest.map (fun b => b.name)).Nodup := by
      simpa using hnd.of_cons
    have hhead : a.name ∉ rest.map (fun b => b.name) := by
      have := hnd
      rw [List.map_cons, List.nodup_cons] at this
      exact this.1
    have hfresh' : ∀ b ∈ rest, b.name ∉ fs ++ [a.name] := by
      intro b hb hmem
      rcases List.mem_append.mp hmem with hmem | hmem
      · exact hfresh b (List.mem_cons_of_mem a hb) hmem
      · have hbe : b.name = a.name := by simpa using hmem
        exact hhead (hbe ▸ List.mem_map_of_mem (fun x => x.name) hb)
    calc (a :: rest).foldl (fun acc x => writeName acc x.name) fs
        = rest.foldl (fun acc x => writeName acc x.name) (fs ++ [a.name]) := by
          simp [hstep]
      _ = (fs ++ [a.name]) ++ rest.map (fun b => b.name) := ih _ hfresh' hnd'
      _ = fs ++ (a :: rest).map (fun b => b.name) := by simp

/-- C7 counterexample: the claim that for every task with N well-formed
attachments the post-build workspace holds exactly N decoded attachment files
plus index.html, README.md and LICENSE (N + 3 files) fails when an attachment
is named like a generated file: with the single well-formed attachment named
"index.html" the generated page overwrites it and the workspace holds 3
files, not 1 + 3 = 4. -/
theorem postbuild_file_count_cx :
    postBuildFiles
        { email := "e", task := "t1", round := 1, nonce := none, brief := "b",
          attachments := [⟨"index.html", "data:text/html;base64,"⟩],
          evaluation_url := none } =
      some ["index.html", "README.md", "LICENSE"] ∧
      (["index.html", "README.md", "LICENSE"] : List String).length ≠
        ([⟨"index.html", "data:text/html;base64,"⟩] : List Attachment).length + 3 := by
  decide

/-- C7 as amended: for every task whose well-formed attachments have pairwise
distinct names, none equal to a generated file name (index.html, README.md)
or to LICENSE, the post-build workspace holds exactly the N decoded
attachment files plus index.html, README.md and LICENSE — N + 3 files, no
more and no fewer. -/
theorem postbuild_exact_files (t : TaskDesc)
    (hok : ∀ a ∈ t.attachments, decodeOk a.url = true)
    (hnd : (t.attachments.map (fun a => a.name)).Nodup)
    (hdisj : ∀ a ∈ t.attachments,
      a.name ≠ "index.html" ∧ a.name ≠ "README.md" ∧ a.name ≠ "LICENSE") :
    postBuildFiles t =
        some (t.attachments.map (fun a => a.name) ++
          ["index.html", "README.md", "LICENSE"]) ∧
      (t.attachments.map (fun a => a.name) ++
        ["index.html", "README.md", "LICENSE"]).length =
        t.attachments.length + 3 := by
  have hwa := writeAtts_ok t.attachments [] hok
  have hfold := foldl_writeName_fresh t.attachments [] (by simp) hnd
  have h1 : "index.html" ∉ t.attachments.map (fun a => a.name) := by
    intro hmem
    obtain ⟨a, ha, hn⟩ := List.mem_map.mp hmem
    exact (hdisj a ha).1 hn
  have h2 : "README.md" ∉ t.attachments.map (fun a => a.name) ++ ["index.html"] := by
    intro hmem
    rcases List.mem_append.mp hmem with hmem | hmem
    · obtain ⟨a, ha, hn⟩ := List.mem_map.mp hmem
      exact (hdisj a ha).2.1 hn
    · simp at hmem
  have h3 : "LICENSE" ∉
      (t.attachments.map (fun a => a.name) ++ ["index.html"]) ++ ["README.md"] := by
    intro hmem
    rcases List.mem_append.mp hmem with hmem | hmem
    · rcases List.mem_append.mp hmem with hmem | hmem
      · obtain ⟨a, ha, hn⟩ := List.mem_map.mp hmem
        exact (hdisj a ha).2.2 hn
      · simp at hmem
    · simp at hmem
  have e1 : writeName (t.attachments.map (fun a => a.name)) "index.html" =
      t.attachments.map (fun a => a.name) ++ ["index.html"] := by
    rw [writeName, if_neg h1]
  have e2 : writeName (t.attachments.map (fun a => a.name) ++ ["index.html"])
      "README.md" =
      t.attachments.map (fun a => a.name) ++ ["index.html"] ++ ["README.md"] := by
    rw [writeName, if_neg h2]
  have e3 : writeName
      (t.attachments.map (fun a => a.name) ++ ["index.html"] ++ ["README.md"])
      "LICENSE" =
      t.attachments.map (fun a => a.name) ++ ["index.html"] ++ ["README.md"] ++
        ["LICENSE"] := by
    rw [writeName, if_neg h3]
  have hpb : postBuildFiles t =
      some (writeName (writeName (writeName
        (t.attachments.map (fun a => a.name)) "index.html") "README.md")
        "LICENSE") := by
    simp only [postBuildFiles, hwa, generate_minimal_app, List.foldl_cons,
      List.foldl_nil, hfold, List.nil_append]
  constructor
  · rw [hpb, e1, e2, e3]
    simp
  · simp

theorem postbuild_exact_files_witness :
    postBuildFiles
        { email := "e", task := "t1", round := 1, nonce := none, brief := "b",
          attachments := [⟨"pic.png", "data:image/png;base64,aGk="⟩,
            ⟨"data.txt", "data:text/plain;base64,"⟩],
          evaluation_url := none } =
      some (([⟨"pic.png", "data:image/png;base64,aGk="⟩,
          ⟨"data.txt", "data:text/plain;base64,"⟩] : List Attachment).map
            (fun a => a.name) ++ ["index.html", "README.md", "LICENSE"]) ∧
      (([⟨"pic.png", "data:image/png;base64,aGk="⟩,
          ⟨"data.txt", "data:text/plain;base64,"⟩] : List Attachment).map
            (fun a => a.name) ++ ["index.html", "README.md", "LICENSE"]).length =
        ([⟨"pic.png", "data:image/png;base64,aGk="⟩,
          ⟨"data.txt", "data:text/plain;base64,"⟩] : List Attachment).length + 3 :=
  postbuild_exact_files _ (by decide) (by decide) (by decide)

/-- Lookup in the email-to-secret mapping: `secrets_map.get(email)`
(src/student_server.py line 255), `none` when the email has no entry. -/
def getKey : List (String × String) → String → Option String
  | [], _ => none
  | p :: rest, k => if p.1 = k then some p.2 else getKey rest k

/-- Assignment `secrets_map[email] = secret` (src/student_server.py
line 270) on a mapping with unique keys (a JSON object cannot repeat keys):
an existing entry is overwritten in place, a new one is appended, matching
Python dict semantics. -/
def setKey : List (String × String) → String → String → List (String × String)
  | [], k, v => [(k, v)]
  | p :: rest, k, v => if p.1 = k then (k, v) :: rest else p :: setKey rest k v

/-- Embedding of the `/admin/add_secret` endpoint (src/student_server.py
lines 263-272): rejects a falsy email or secret (modelled as the empty
string) with 400, otherwise stores the entry, persists the whole mapping
(`save_secrets_map` rewrites the file; persistence is the returned map), and
answers 200. -/
def admin_add_secret (m : List (String × String)) (email secret : String) :
    List (String × String) × Nat :=
  if email = "" ∨ secret = "" then (m, 400) else (setKey m email secret, 200)

/-- The intake request body as `/api/task` reads it
(src/student_server.py lines 241-261): `none` models an absent key. -/
structure Req where
  email : Option String
  secret : Option String
  task : Option String
  round : Option Int
  nonce : Option String
  brief : Option String
  evaluation_url : Option String
  attachments : List Attachment
deriving DecidableEq

/-- The required-key gate of `/api/task` (src/student_server.py lines
248-251): every required key must be present; only presence is checked,
never the value. -/
def allKeys (r : Req) : Bool :=
  r.email.isSome && r.secret.isSome && r.task.isSome && r.round.isSome &&
    r.nonce.isSome && r.brief.isSome && r.evaluation_url.isSome

/-- The task descriptor `process_task` extracts from an accepted request body
(src/student_server.py lines 160-166): required fields are present at this
point, `round` defaults to 1, `brief` to "", `attachments` to `[]`. -/
def reqToTask (r : Req) : TaskDesc :=
  { email := r.email.getD "", task := r.task.getD "", round := r.round.getD 1,
    nonce := r.nonce, brief := r.brief.getD "", attachments := r.attachments,
    evaluation_url := r.evaluation_url }

/-- Embedding of the `/api/task` endpoint (src/student_server.py lines
241-261): after the key-presence gate, the stored secret for the email must
exist and equal the submitted secret; on success the task is submitted to the
pool and 200 "accepted" is returned, otherwise 400 with no submission. -/
def api_task (m : List (String × String)) (r : Req) : Nat × Option TaskDesc :=
  if allKeys r then
    match getKey m (r.email.getD "") with
    | none => (400, none)
    | some stored =>
      if some stored = r.secret then (200, some (reqToTask r)) else (400, none)
  else (400, none)

/-- Sequential administrative updates applied in order
(each one an `/admin/add_secret` call). -/
def applyAdmin (m : List (String × String)) (us : List (String × String)) :
    List (String × String) :=
  us.foldl (fun acc u => (admin_add_secret acc u.1 u.2).1) m

/-- The secret of the last administrative update for `email` in `us`,
if any. -/
def lastWrite (email : String) : List (String × String) → Option String
  | [] => none
  | u :: rest =>
    match lastWrite email rest with
    | some s => some s
    | none => if u.1 = email then some u.2 else none

theorem getKey_setKey_self :
    ∀ (m : List (String × String)) (k v : String),
      getKey (setKey m k v) k = some v := by
  intro m
  induction m with
  | nil => intro k v; simp [setKey, getKey]
  | cons p rest ih =>
    intro k v
    by_cases hp : p.1 = k
    · simp [setKey, hp, getKey]
    · simp [setKey, hp, getKey, ih]

theorem getKey_setKey_ne :
    ∀ (m : List (String × String)) (k v k' : String), k' ≠ k →
      getKey (setKey m k v) k' = getKey m k' := by
  intro m
  induction m with
  | nil =>
    intro k v k' hne
    have hne' : ¬ k = k' := fun h => hne h.symm
    simp [setKey, getKey, hne']
  | cons p rest ih =>
    intro k v k' hne
    have hne' : ¬ k = k' := fun h => hne h.symm
    by_cases hp : p.1 = k
    · by_cases hp' : p.1 = k'
      · exact absurd (hp' ▸ hp) hne
      · simp [setKey, hp, getKey, hne', hp']
    · simp [setKey, hp, getKey, ih _ _ _ hne]

theorem applyAdmin_lookup :
    ∀ (us : List (String × String)) (m : List (String × String)) (email : String),
      (∀ u ∈ us, u.1 ≠ "" ∧ u.2 ≠ "") →
      getKey (applyAdmin m us) email =
        match lastWrite email us with
        | some s => some s
        | none => getKey m email := by
  intro us
  induction us with
  | nil => intro m email _; simp [applyAdmin, lastWrite]
  | cons u rest ih =>
    intro m email hus
    have hu := hus u (List.mem_cons_self u rest)
    have hrest : ∀ v ∈ rest, v.1 ≠ "" ∧ v.2 ≠ "" :=
      fun v hv => hus v (List.mem_cons_of_mem u hv)
    have hstep : (admin_add_secret m u.1 u.2).1 = setKey m u.1 u.2 := by
      simp [admin_add_secret, hu.1, hu.2]
    have happ : applyAdmin m (u :: rest) = applyAdmin (setKey m u.1 u.2) rest := by
      simp [applyAdmin, hstep]
    rw [happ, ih _ email hrest]
    cases hl : lastWrite email rest with
    | some s => simp [lastWrite, hl]
    | none =>
      by_cases hue : u.1 = email
      · simp [lastWrite, hl, hue, hue ▸ getKey_setKey_self m u.1 u.2]
      · have hne : email ≠ u.1 := fun h => hue h.symm
        simp [lastWrite, hl, hue, getKey_setKey_ne m u.1 u.2 email hne]

/-- C8: after an administrative secret update setting a new secret for an
email (the whole mapping being rewritten to persist it), the update is
acknowledged with 200, a subsequent intake request for that email succeeds
with the new secret and is rejected with the old secret, and sequential
administrative updates never lose an update: after any further sequence of
valid updates, the email's stored secret is the last one written for it (the
new secret if none followed). -/
theorem secret_update_takes_effect (m : List (String × String))
    (email oldS newS : String) (r1 r2 : Req) (us : List (String × String))
    (he : email ≠ "") (hn : newS ≠ "") (hne : oldS ≠ newS)
    (hr1 : allKeys r1 = true) (hr1e : r1.email = some email)
    (hr1s : r1.secret = some newS)
    (hr2 : allKeys r2 = true) (hr2e : r2.email = some email)
    (hr2s : r2.secret = some oldS)
    (hus : ∀ u ∈ us, u.1 ≠ "" ∧ u.2 ≠ "") :
    (admin_add_secret m email newS).2 = 200 ∧
      (api_task (admin_add_secret m email newS).1 r1).1 = 200 ∧
      (api_task (admin_add_secret m email newS).1 r2).1 = 400 ∧
      getKey (applyAdmin (admin_add_secret m email newS).1 us) email =
        some ((lastWrite email us).getD newS) := by
  have hadmin : admin_add_secret m email newS = (setKey m email newS, 200) := by
    simp [admin_add_secret, he, hn]
  have hself := getKey_setKey_self m email newS
  refine ⟨by simp [hadmin], ?_, ?_, ?_⟩
  · simp [hadmin, api_task, hr1, hr1e, hr1s, hself]
  · have hno : newS ≠ oldS := fun h => hne h.symm
    simp [hadmin, api_task, hr2, hr2e, hr2s, hself, hno]
  · rw [hadmin]
    rw [applyAdmin_lookup us (setKey m email newS) email hus]
    cases hl : lastWrite email us with
    | some s => simp [hl]
    | none => simp [hl, hself]

theorem secret_update_takes_effect_witness :
    (admin_add_secret [("a@b.c", "old")] "a@b.c" "new").2 = 200 ∧
      (api_task (admin_add_secret [("a@b.c", "old")] "a@b.c" "new").1
        { email := some "a@b.c", secret := some "new", task := some "t1",
          round := some 1, nonce := some "n", brief := some "b",
          evaluation_url := some "http://cb", attachments := [] }).1 = 200 ∧
      (api_task (admin_add_secret [("a@b.c", "old")] "a@b.c" "new").1
        { email := some "a@b.c", secret := some "old", task := some "t1",
          round := some 1, nonce := some "n", brief := some "b",
          evaluation_url := some "http://cb", attachments := [] }).1 = 400 ∧
      getKey (applyAdmin (admin_add_secret [("a@b.c", "old")] "a@b.c" "new").1
          [("x@y.z", "s1"), ("a@b.c", "s2")]) "a@b.c" =
        some ((lastWrite "a@b.c" [("x@y.z", "s1"), ("a@b.c", "s2")]).getD "new") :=
  secret_update_takes_effect [("a@b.c", "old")] "a@b.c" "old" "new" _ _
    [("x@y.z", "s1"), ("a@b.c", "s2")]
    (by decide) (by decide) (by decide) (by decide) rfl rfl (by decide) rfl rfl
    (by decide)

/-- C10: a submission carrying the callback-URL key with an empty (falsy)
value passes intake — the gate checks only key presence, never the value —
and is accepted with 200 and submitted; the pipeline then runs to completion
(reaches its final step) while issuing zero notification POSTs, because
`if evaluation_url:` is false for the empty string. -/
theorem empty_callback_accepted_no_notify (m : List (String × String))
    (env : Env) (r : Req) (email s u : String) (p q : Nat)
    (hkeys : allKeys r = true)
    (heval : r.evaluation_url = some "")
    (hre : r.email = some email)
    (hrs : r.secret = some s)
    (hstored : getKey m email = some s)
    (hgh : env.ghToken = true)
    (hgit : ∀ c, env.gitOk c = true)
    (hrepo : env.createRepoResp = some u)
    (hpost : env.pagesPostResp = some p)
    (hput : env.pagesPutResp = some q)
    (hdec : ∀ a ∈ r.attachments, decodeOk a.url = true) :
    api_task m r = (200, some (reqToTask r)) ∧
      Ev.notifyRun ∉ process_task env (reqToTask r) ∧
      Ev.finish ∈ process_task env (reqToTask r) := by
  have hg1 := runGits_ok gitSeq1 env.gitOk (fun c _ => hgit c)
  have hg2 := runGits_ok gitSeq2 env.gitOk (fun c _ => hgit c)
  have hdec' : ∀ a ∈ (reqToTask r).attachments, decodeOk a.url = true := hdec
  have heval' : (reqToTask r).evaluation_url = some "" := heval
  refine ⟨by simp [api_task, hkeys, hre, hrs, hstored], ?_, ?_⟩ <;>
    by_cases hp : p = 201 ∨ p = 202 <;>
      simp [process_task, writeAtts_ok _ _ hdec', hg1, provisionPhase, hgh,
        hrepo, hg2, github_enable_pages, hpost, hput, afterPages, heval',
        truthyStr, hp, generate_minimal_app]

theorem empty_callback_accepted_no_notify_witness :
    api_task [("a@b.c", "s")]
        { email := some "a@b.c", secret := some "s", task := some "t1",
          round := some 1, nonce := some "n", brief := some "b",
          evaluation_url := some "", attachments := [] } =
      (200, some (reqToTask
        { email := some "a@b.c", secret := some "s", task := some "t1",
          round := some 1, nonce := some "n", brief := some "b",
          evaluation_url := some "", attachments := [] })) ∧
      Ev.notifyRun ∉ process_task
        { ghToken := true, gitOk := fun _ => true, createRepoResp := some "u",
          pagesPostResp := some 201, pagesPutResp := some 201 }
        (reqToTask
          { email := some "a@b.c", secret := some "s", task := some "t1",
            round := some 1, nonce := some "n", brief := some "b",
            evaluation_url := some "", attachments := [] }) ∧
      Ev.finish ∈ process_task
        { ghToken := true, gitOk := fun _ => true, createRepoResp := some "u",
          pagesPostResp := some 201, pagesPutResp := some 201 }
        (reqToTask
          { email := some "a@b.c", secret := some "s", task := some "t1",
            round := some 1, nonce := some "n", brief := some "b",
            evaluation_url := some "", attachments := [] }) :=
  empty_callback_accepted_no_notify _ _ _ "a@b.c" "s" "u" 201 201
    rfl rfl rfl rfl rfl rfl (fun _ => rfl) rfl rfl rfl (by decide)
